import Mathlib

/-!
Verification of the callout-control plugin core (`src/main.js`, revision at
lines 1-1698, plus the sync service of `src/unnamed/part_002`).

The JavaScript is shallowly embedded: strings are Lean `String`s, lines are
`List String` obtained by splitting on a newline character, the two
regular expressions (`CALLOUT_REGEX` and `CONTINUATION_REGEX`) are embedded
as deterministic matching functions on `List Char` (both regexes are
backtracking-free: every quantified class is disjoint from the character
required next), JavaScript numbers holding line indices are `Nat`, and
the recursive parser is written fuel-indexed (every recursive call
consumes one unit of fuel; `parseDocument` supplies an amount of fuel
that is never exhausted on its call tree).
-/

set_option maxRecDepth 16000

namespace CalloutControl

/-- Character class of the JavaScript regex escape `\s`
(whitespace, including line terminators and Unicode spaces). -/
def isJsSpace (c : Char) : Bool :=
  c = ' ' || c = '\t' || c = '\n' || c = '\r' ||
  c = '\x0b' || c = '\x0c' || c = '\u00A0' ||
  c = '\u1680' || ('\u2000' ≤ c && c ≤ '\u200A') ||
  c = '\u2028' || c = '\u2029' || c = '\u202F' || c = '\u205F' ||
  c = '\u3000' || c = '\uFEFF'

/-- JavaScript line terminators (the characters `.` does not match). -/
def isLineTerminator (c : Char) : Bool :=
  c = '\n' || c = '\r' || c = '\u2028' || c = '\u2029'

/-- Character class of the JavaScript regex escape `\w`. -/
def isWordChar (c : Char) : Bool :=
  c.isAlpha || c.isDigit || c = '_'

/-- Characters allowed in a callout type tag: the class `[\w-]`. -/
def isTypeChar (c : Char) : Bool :=
  isWordChar c || c = '-'

/-- Matching of `CALLOUT_REGEX = /^>\s*\[!([\w-]+)\]([+-]?)\s*(.*)/` against a
line, as executed by the JavaScript engine.  Returns
`some (type, collapse, title, tail)` where the first three components are the
captures of groups 1-3 and `tail` is the part of the line after the match
(nonempty only when the line contains a line-terminator character).
Each quantifier is matched by maximal munch, which coincides with the
backtracking semantics because no continuation character belongs to the
quantified class. -/
def matchCalloutChars : List Char → Option (List Char × List Char × List Char × List Char)
  | '>' :: r0 =>
    match r0.dropWhile isJsSpace with
    | '[' :: '!' :: r1 =>
      match r1.takeWhile isTypeChar, r1.dropWhile isTypeChar with
      | ty@(_ :: _), ']' :: r3 =>
        let colRest : List Char × List Char :=
          match r3 with
          | c :: r => if c = '+' || c = '-' then ([c], r) else ([], r3)
          | [] => ([], [])
        let r5 := colRest.2.dropWhile isJsSpace
        some (ty, colRest.1,
          r5.takeWhile (fun c => !isLineTerminator c),
          r5.dropWhile (fun c => !isLineTerminator c))
      | _, _ => none
    | _ => none
  | _ => none

/-- Matching of `CONTINUATION_REGEX = /^>\s?(.*)/`: returns the capture of
group 1 when the line starts with the quote marker. -/
def matchContinuationChars : List Char → Option (List Char)
  | '>' :: r =>
    let r1 : List Char :=
      match r with
      | c :: rest => if isJsSpace c then rest else r
      | [] => []
    some (r1.takeWhile (fun c => !isLineTerminator c))
  | _ => none

/-- JavaScript `String.prototype.trim` on a character list. -/
def jsTrimChars (l : List Char) : List Char :=
  ((l.dropWhile isJsSpace).reverse.dropWhile isJsSpace).reverse

/-- JavaScript `String.prototype.split('\n')` on a character list: the split
pieces, returned as a nonempty (head, rest) pair. -/
def splitNL : List Char → List Char × List (List Char)
  | [] => ([], [])
  | c :: rest =>
    let p := splitNL rest
    if c = '\n' then ([], p.1 :: p.2) else (c :: p.1, p.2)

/-- `content.split('\n')` of `parseDocument`. -/
def splitLines (s : String) : List String :=
  let p := splitNL s.data
  (p.1 :: p.2).map List.asString

/-- `CalloutParser.isCalloutStartLine`. -/
def isCalloutStartLine (s : String) : Bool :=
  (matchCalloutChars s.data).isSome

/-- `CalloutParser.isCalloutContinuationLine`:
`line.trim().startsWith('>') && !isCalloutStartLine(line)`. -/
def isCalloutContinuationLine (s : String) : Bool :=
  (match jsTrimChars s.data with
   | '>' :: _ => true
   | _ => false) && !(isCalloutStartLine s)

/-- `CalloutParser.formatContent`: strips the quote prefix captured by the
continuation regex from each line and joins with newlines. -/
def formatContent (contentLines : List String) : String :=
  String.intercalate "\n" (contentLines.map (fun line =>
    match matchContinuationChars line.data with
    | some m => m.asString
    | none => line))

/-- The `Callout` class.  `nestedCallouts` makes the type recursive, so it is
an inductive with projection functions below. -/
inductive Callout : Type where
  | mk (type : String) (title : String) (isCollapsed : Bool) (content : String)
       (startLine : Nat) (endLine : Nat) (nestedCallouts : List Callout) (rawLine : String)

def Callout.type : Callout → String
  | .mk t _ _ _ _ _ _ _ => t

def Callout.title : Callout → String
  | .mk _ t _ _ _ _ _ _ => t

def Callout.isCollapsed : Callout → Bool
  | .mk _ _ b _ _ _ _ _ => b

def Callout.content : Callout → String
  | .mk _ _ _ c _ _ _ _ => c

def Callout.startLine : Callout → Nat
  | .mk _ _ _ _ s _ _ _ => s

def Callout.endLine : Callout → Nat
  | .mk _ _ _ _ _ e _ _ => e

def Callout.nestedCallouts : Callout → List Callout
  | .mk _ _ _ _ _ _ ns _ => ns

def Callout.rawLine : Callout → String
  | .mk _ _ _ _ _ _ _ r => r

/-- The adjustment `nested.startLine += k; nested.endLine += k` performed by
`parseNestedCallouts` (only the top-level bounds are shifted; deeper
descendants are left untouched, exactly as in the source). -/
def Callout.shift : Callout → Nat → Callout
  | .mk ty t b c s e ns r, k => .mk ty t b c (s + k) (e + k) ns r

/-- `Callout.containsLine`. -/
def Callout.containsLine (c : Callout) (lineNumber : Nat) : Bool :=
  decide (c.startLine ≤ lineNumber) && decide (lineNumber ≤ c.endLine)

/-- `Callout.distanceToLine`: zero inside the callout, otherwise the least
distance to either end of the span. -/
def Callout.distanceToLine (c : Callout) (lineNumber : Nat) : Nat :=
  if c.containsLine lineNumber then 0
  else min (Nat.dist c.startLine lineNumber) (Nat.dist c.endLine lineNumber)

/-- The header line a mutation writes back:
the template `> [!${type}]${marker} ${title}` of `updateCollapseState`. -/
def headerChars (ty : List Char) (marker : Char) (title : List Char) : List Char :=
  '>' :: ' ' :: '[' :: '!' :: (ty ++ ']' :: marker :: ' ' :: title)

/-- `rawLine.replace(CALLOUT_REGEX, ...)` of `Callout.updateCollapseState`:
the matched part of the line is replaced by the rebuilt header, the part
after the match (if any) is kept, and a line the regex does not match is
returned unchanged. -/
def replaceCalloutLine (raw : String) (newState : Bool) : String :=
  match matchCalloutChars raw.data with
  | some (ty, _, title, tail) =>
    (headerChars ty (if newState then '-' else '+') title ++ tail).asString
  | none => raw

/-- `Callout.updateCollapseState`. -/
def Callout.updateCollapseState (c : Callout) (newState : Bool) : String :=
  replaceCalloutLine c.rawLine newState

/-- The `while` loop of `CalloutParser.extractContent`, run over the lines
from index `currentLine` on (passed as the list `rest`).  Returns the
collected content lines and `some endLine` when the loop hit `break` at a
terminator with nesting 0, or `none` when it ran off the end of the
document. -/
def extractLoop : List String → Nat → Nat → List String × Option Nat
  | [], _, _ => ([], none)
  | line :: rest, currentLine, nesting =>
    if isCalloutStartLine line then
      let p := extractLoop rest (currentLine + 1) (nesting + 1)
      (line :: p.1, p.2)
    else if isCalloutContinuationLine line then
      let p := extractLoop rest (currentLine + 1) nesting
      (line :: p.1, p.2)
    else if 0 < nesting then
      let p := extractLoop rest (currentLine + 1) (nesting - 1)
      (line :: p.1, p.2)
    else
      ([], some (currentLine - 1))

mutual

/-- `CalloutParser.parseCallout` (fuel-indexed).  All subtractions stay exact:
the function is only reached with the start index inside the line list. -/
def parseCalloutF : Nat → List String → Nat → Option Callout
  | 0, _, _ => none
  | fuel + 1, lines, startLineIndex =>
    match lines.get? startLineIndex with
    | none => none
    | some startLine =>
      match matchCalloutChars startLine.data with
      | none => none
      | some (ty, col, title, _) =>
        let r := extractContentF fuel lines (startLineIndex + 1)
        some (.mk ty.asString (jsTrimChars title).asString (decide (col = ['-']))
          (formatContent r.1) startLineIndex r.2.1 r.2.2 startLine)
termination_by structural fuel => fuel

/-- `CalloutParser.extractContent` (fuel-indexed): content lines, end line and
nested callouts of the callout whose body starts at line `startLine`. -/
def extractContentF : Nat → List String → Nat → List String × Nat × List Callout
  | 0, _, startLine => ([], startLine - 1, [])
  | fuel + 1, lines, startLine =>
    let p := extractLoop (lines.drop startLine) startLine 0
    let endLine : Nat :=
      match p.2 with
      | some e => e
      | none => lines.length - 1
    (p.1, endLine, parseNestedF fuel p.1 (startLine - 1))
termination_by structural fuel => fuel

/-- `CalloutParser.parseNestedCallouts` (fuel-indexed). -/
def parseNestedF : Nat → List String → Nat → List Callout
  | 0, _, _ => []
  | fuel + 1, contentLines, parentStartLine =>
    parseNestedAuxF fuel contentLines parentStartLine 0
termination_by structural fuel => fuel

/-- The `while` loop of `parseNestedCallouts`: scans the content lines from
index `nestedStartLine`, parsing a nested callout at each start line and
skipping past its whole span. -/
def parseNestedAuxF : Nat → List String → Nat → Nat → List Callout
  | 0, _, _, _ => []
  | fuel + 1, contentLines, parentStartLine, nestedStartLine =>
    match contentLines.get? nestedStartLine with
    | none => []
    | some line =>
      if isCalloutStartLine line then
        match parseCalloutF fuel (contentLines.drop nestedStartLine) 0 with
        | some nested0 =>
          let nested := nested0.shift (parentStartLine + 1 + nestedStartLine)
          nested :: parseNestedAuxF fuel contentLines parentStartLine
            (nestedStartLine + (nested.endLine - nested.startLine + 1))
        | none => parseNestedAuxF fuel contentLines parentStartLine (nestedStartLine + 1)
      else parseNestedAuxF fuel contentLines parentStartLine (nestedStartLine + 1)
termination_by structural fuel => fuel

end

/-- The `for` loop of `CalloutParser.parseDocument`: on a start line the
parsed callout is appended and the index jumps to `endLine + 1`, otherwise
the index advances by one.  `iter` bounds the number of loop iterations. -/
def parseDocumentAux (fuel : Nat) (lines : List String) : Nat → Nat → List Callout
  | _, 0 => []
  | i, iter + 1 =>
    match lines.get? i with
    | none => []
    | some line =>
      if isCalloutStartLine line then
        match parseCalloutF fuel lines i with
        | some c => c :: parseDocumentAux fuel lines (c.endLine + 1) iter
        | none => parseDocumentAux fuel lines (i + 1) iter
      else parseDocumentAux fuel lines (i + 1) iter

/-- Fuel that is never exhausted when parsing `lines`: the recursion depth of
the parser on a document of `n` lines is below `(n + 2) * (n + 2)`. -/
def docFuel (lines : List String) : Nat :=
  (lines.length + 2) * (lines.length + 2)

/-- `CalloutParser.parseDocument`. -/
def parseDocument (content : String) : List Callout :=
  let lines := splitLines content
  parseDocumentAux (docFuel lines) lines 0 (lines.length + 1)

/-- JavaScript `line.startsWith('#')`. -/
def startsWithHash (s : String) : Bool :=
  match s.data with
  | '#' :: _ => true
  | _ => false

/-- The upward scan of `CalloutParser.getCalloutsInSection`: decrements from
the cursor line until a line starting with `#` is met; a scan that falls off
the top of the document is clamped to line 0 (both by the code's final
adjustment and because line 0 itself was already inspected). -/
def scanUp (lines : List String) : Nat → Nat
  | 0 => 0
  | i + 1 =>
    if startsWithHash (lines.getD (i + 1) "") then i + 1 else scanUp lines i

/-- The downward scan of `CalloutParser.getCalloutsInSection`, iterating over
the suffix of `lines` from index `i` (so that the recursion is structural):
`rest` is always `lines.drop i`. -/
def scanDownAux (lines : List String) : List String → Nat → Nat
  | [], _ => lines.length - 1
  | l :: rest, i => if startsWithHash l then i else scanDownAux lines rest (i + 1)

/-- The downward scan of `CalloutParser.getCalloutsInSection`: increments from
the cursor line until a line starting with `#` is met; a scan that runs past
the last line is clamped to the last line index. -/
def scanDown (lines : List String) (i : Nat) : Nat :=
  scanDownAux lines (lines.drop i) i

/-- `CalloutParser.getCalloutsInSection`: keeps the callouts whose span lies
between the two scan results (both bounds inclusive). -/
def getCalloutsInSection (callouts : List Callout) (lines : List String)
    (cursorLine : Nat) : List Callout :=
  let sectionStart := scanUp lines cursorLine
  let sectionEnd := scanDown lines cursorLine
  callouts.filter fun c =>
    decide (sectionStart ≤ c.startLine) && decide (c.endLine ≤ sectionEnd)

mutual

/-- `Callout.findNestedCalloutWithLine`. -/
def Callout.findNestedCalloutWithLine : Callout → Nat → Option Callout
  | .mk _ _ _ _ _ _ ns _, lineNumber => findNestedInList ns lineNumber

/-- The `for`-of loop of `findNestedCalloutWithLine` over the nested list:
returns the deepest nested callout containing the line (`deeperNested ||
nested` in the source). -/
def findNestedInList : List Callout → Nat → Option Callout
  | [], _ => none
  | c :: rest, lineNumber =>
    if c.containsLine lineNumber then
      match c.findNestedCalloutWithLine lineNumber with
      | some deeper => some deeper
      | none => some c
    else findNestedInList rest lineNumber

end

/-- `CalloutParser.findCalloutContainingLine`. -/
def findCalloutContainingLine : List Callout → Nat → Option Callout
  | [], _ => none
  | c :: rest, lineNumber =>
    if c.containsLine lineNumber then
      some ((c.findNestedCalloutWithLine lineNumber).getD c)
    else findCalloutContainingLine rest lineNumber

/-- One step of the stable sort: inserts `x` after every already-placed
element whose key is strictly smaller, before the first element whose key is
greater than or equal (so an element keeps its position relative to
equal-key elements that preceded it in the input). -/
def insertByKey (key : α → Nat) (x : α) : List α → List α
  | [] => [x]
  | y :: ys => if key y < key x then y :: insertByKey key x ys else x :: y :: ys

/-- Model of `Array.prototype.sort(comparator)` for the comparator
`(a, b) => key(a) - key(b)`: the ECMAScript specification requires a stable
sort consistent with the comparator, and for a consistent comparator the
stable sorted permutation is unique, so any stable sorting algorithm is a
faithful model. -/
def jsSortByKey (key : α → Nat) : List α → List α
  | [] => []
  | x :: xs => insertByKey key x (jsSortByKey key xs)

/-- `CalloutParser.findClosestCallout`, with the mutation of its array
argument made explicit: the pair holds the returned callout and the
contents of the caller's `callouts` array after the call (the call to
`Array.prototype.sort` reorders that array in place). -/
def findClosestCalloutSt (callouts : List Callout) (lineNumber : Nat) :
    Option Callout × List Callout :=
  match findCalloutContainingLine callouts lineNumber with
  | some c => (some c, callouts)
  | none =>
    match callouts with
    | [] => (none, [])
    | _ =>
      let sorted := jsSortByKey (fun c => c.distanceToLine lineNumber) callouts
      (sorted.head?, sorted)

/-- The return value of `CalloutParser.findClosestCallout`. -/
def findClosestCallout (callouts : List Callout) (lineNumber : Nat) : Option Callout :=
  (findClosestCalloutSt callouts lineNumber).1

/-- The modes of `CONSTANTS.MODES`. -/
inductive Mode : Type where
  | toggle
  | collapse
  | expand
  | toggleIndividual

/-- `callouts.filter(c => c.isCollapsed).length`. -/
def countCollapsed (callouts : List Callout) : Nat :=
  (callouts.filter fun c => c.isCollapsed).length

/-- `createCalloutOperation`: the state-assignment policy of each mode.  The
TOGGLE test `collapsedCount < callouts.length / 2` uses exact JavaScript
division, rendered over naturals as `2 * collapsedCount < callouts.length`. -/
def createCalloutOperation (mode : Mode) (callouts : List Callout) : Callout → Bool :=
  match mode with
  | .collapse => fun _ => true
  | .expand => fun _ => false
  | .toggleIndividual => fun c => !c.isCollapsed
  | .toggle =>
    let shouldCollapse := decide (2 * countCollapsed callouts < callouts.length)
    fun _ => shouldCollapse

/-- `DOMCalloutService.applyToAllCallouts`, at the level of the collapsed
flags of the rendered elements: every element receives the given state. -/
def applyToAllCallouts (elems : List Bool) (state : Bool) : List Bool :=
  elems.map fun _ => state

/-- The ALL-scope TOGGLE branch of
`CalloutControlPlugin.applyVisualOperation`: with no elements the operation
returns early; otherwise every element is set to the negation of the FIRST
element's current state. -/
def applyVisualAllToggle : List Bool → List Bool
  | [] => []
  | e :: rest => applyToAllCallouts (e :: rest) (!e)

/-- The SECTION-scope TOGGLE branch of
`CalloutControlPlugin.applyVisualOperation`: with no matching elements the
operation returns early; otherwise every element is set to the majority
verdict `collapsedCount < matchingElements.length / 2`. -/
def applyVisualSectionToggle (elems : List Bool) : List Bool :=
  match elems with
  | [] => []
  | _ =>
    let collapsedCount := (elems.filter id).length
    applyToAllCallouts elems (decide (2 * collapsedCount < elems.length))

/-- JavaScript `haystack.includes(needle)`: contiguous substring test. -/
def jsIncludesChars : List Char → List Char → Bool
  | hay, needle =>
    if needle.isPrefixOf hay then true
    else
      match hay with
      | [] => false
      | _ :: t => jsIncludesChars t needle

/-- `a.includes(b)` on strings. -/
def jsIncludes (a b : String) : Bool :=
  jsIncludesChars a.data b.data

/-- `CalloutSyncService.findMatchingMarkdownCallout` (src/unnamed/part_002):
the four-strategy matching cascade, first success wins. -/
def findMatchingMarkdownCallout (markdownCallouts : List Callout)
    (title type : String) (isCollapsed : Bool) : Option Callout :=
  match markdownCallouts.find? (fun c =>
      c.title == title && c.type == type && c.isCollapsed == isCollapsed) with
  | some m => some m
  | none =>
    match markdownCallouts.find? (fun c => c.title == title && c.type == type) with
    | some m => some m
    | none =>
      match markdownCallouts.find? (fun c => c.title == title) with
      | some m => some m
      | none =>
        markdownCallouts.find? (fun c =>
          jsIncludes title c.title || jsIncludes c.title title)

/-- The predicate of the single `find` pass of
`DOMCalloutService.findMatchingCallout` (src/main.js:634-646): exact title
equality, type equality whenever a non-empty type string was read off the
element (JavaScript `!type ||` also accepts the empty string), and — only
when the rendered content is shorter than 50 units — bidirectional content
containment. -/
def domCalloutMatches (title content : String) (type : Option String)
    (callout : Callout) : Bool :=
  let titleMatch := callout.title == title
  let typeMatch :=
    match type with
    | none => true
    | some t => (t == "") || (callout.type == t)
  if content.length < 50 then
    titleMatch && typeMatch &&
      (jsIncludes callout.content content || jsIncludes content callout.content)
  else
    titleMatch && typeMatch

/-- `DOMCalloutService.findMatchingCallout` (src/main.js:616-647), at the
level of the data read off the visual element: its trimmed title and content
strings and the optional type extracted from the `callout-title-` class
(`none` models the JavaScript `null`).  A single `find` pass over the parsed
callouts; no fallback strategies. -/
def findMatchingCallout (callouts : List Callout) (title content : String)
    (type : Option String) : Option Callout :=
  callouts.find? (domCalloutMatches title content type)

/-- The inclusive line span of a callout, used to state parsing results. -/
def spanOf (c : Callout) : Nat × Nat :=
  (c.startLine, c.endLine)

/-- The first element of a list minimizing a key (ties go to the earlier
element), the specification of the head of a stable distance sort. -/
def firstMinBy (key : α → Nat) : List α → Option α
  | [] => none
  | x :: xs =>
    match firstMinBy key xs with
    | none => some x
    | some m => if key m < key x then some m else some x

/-- Well-formedness of a span: `startLine ≤ endLine` holds for the callout
and all of its nested descendants. -/
inductive SpanWF : Callout → Prop where
  | intro (c : Callout) : c.startLine ≤ c.endLine →
      (∀ n ∈ c.nestedCallouts, SpanWF n) → SpanWF c

/-- The round trip of the spec's mutation property: collapse a header line,
re-parse the mutated text, and expand the re-parsed callout. -/
def roundTripHeader (raw : String) : String :=
  let mutated := replaceCalloutLine raw true
  match parseDocument mutated with
  | c :: _ => c.updateCollapseState false
  | [] => mutated

/-- The distance measure the claim of `findClosestCallout` states: distance
from the start line only.  The code's `distanceToLine` differs. -/
def startLineDistance (c : Callout) (lineNumber : Nat) : Nat :=
  Nat.dist c.startLine lineNumber

/-- Strategy 1 of the correlation cascade: exact match on the
(title, type, collapse-state) triple. -/
def matchesTitleTypeState (title type : String) (isCollapsed : Bool) (c : Callout) : Bool :=
  c.title == title && c.type == type && c.isCollapsed == isCollapsed

/-- Strategy 2 of the correlation cascade: exact match on title and type. -/
def matchesTitleType (title type : String) (c : Callout) : Bool :=
  c.title == title && c.type == type

/-- Strategy 3 of the correlation cascade: exact match on title alone. -/
def matchesTitle (title : String) (c : Callout) : Bool :=
  c.title == title

/-- Strategy 4 of the correlation cascade: fuzzy title match, either string
contains the other. -/
def fuzzyTitleMatch (title : String) (c : Callout) : Bool :=
  jsIncludes title c.title || jsIncludes c.title title

/-- Modelled from the spec's matching cascade: the four strategies applied in
order on the parsed callout list, first success wins, `none` when all fail. -/
def correlateCascade (markdownCallouts : List Callout) (title type : String)
    (isCollapsed : Bool) : Option Callout :=
  match markdownCallouts.find? (matchesTitleTypeState title type isCollapsed) with
  | some m => some m
  | none =>
    match markdownCallouts.find? (matchesTitleType title type) with
    | some m => some m
    | none =>
      match markdownCallouts.find? (matchesTitle title) with
      | some m => some m
      | none => markdownCallouts.find? (fuzzyTitleMatch title)

/-! ### C1: adjacent identical headers -/

/-- C1 counterexample: on `"> [!note]+ Note\n> [!note]+ Note\n"` the parser
does NOT return two top-level callouts `[0,0]` and `[1,1]`; it returns a
single top-level callout spanning lines 0-2. -/
theorem parseDocument_adjacent_headers_not_two :
    ((parseDocument "> [!note]+ Note\n> [!note]+ Note\n").map Callout.startLine).length = 1 := by
  decide

/-- C1 (amended): the second adjacent header line is absorbed as a nested
callout of the first (the boundary extractor increments its nesting counter
on every header line), so `parseDocument` yields one top-level callout with
span `[0,2]` — the trailing empty line is consumed as the nesting
terminator — whose nested list holds one callout with span `[1,1]`;
top-level scanning then resumes at `endLine + 1`. -/
theorem parseDocument_adjacent_headers_merge :
    (parseDocument "> [!note]+ Note\n> [!note]+ Note\n").map spanOf = [(0, 2)] ∧
    (parseDocument "> [!note]+ Note\n> [!note]+ Note\n").map Callout.title = ["Note"] ∧
    ((parseDocument "> [!note]+ Note\n> [!note]+ Note\n").map fun c =>
      c.nestedCallouts.map spanOf) = [[(1, 1)]] ∧
    ((parseDocument "> [!note]+ Note\n> [!note]+ Note\n").map fun c =>
      c.nestedCallouts.map Callout.title) = [["Note"]] := by
  refine ⟨by decide, by decide, by decide, by decide⟩

/-! ### C2: nested example -/

/-- C2 counterexample: on
`"> [!note]+ Outer\n> [!tip]- Inner\n> inner body\n> outer body\n"` the
top-level callout ends at line 4, not at line 3 as claimed, and its nested
callout spans `[1,3]`, not `[1,2]`. -/
theorem parseDocument_nested_example_spans :
    (parseDocument "> [!note]+ Outer\n> [!tip]- Inner\n> inner body\n> outer body\n").map
      spanOf = [(0, 4)] ∧
    ((parseDocument "> [!note]+ Outer\n> [!tip]- Inner\n> inner body\n> outer body\n").map
      fun c => c.nestedCallouts.map spanOf) = [[(1, 3)]] := by
  refine ⟨by decide, by decide⟩

/-- C2 (amended): the input parses to exactly one top-level callout with
`startLine = 0`, `endLine = 4` (the trailing empty line produced by the final
newline is consumed as the nesting terminator), `isCollapsed = false`, whose
nested list holds exactly one callout with `startLine = 1`, `endLine = 3`
(the nested re-scan consumes every continuation line, including the outer
body), `isCollapsed = true`. -/
theorem parseDocument_nested_example :
    (parseDocument "> [!note]+ Outer\n> [!tip]- Inner\n> inner body\n> outer body\n").map
      spanOf = [(0, 4)] ∧
    (parseDocument "> [!note]+ Outer\n> [!tip]- Inner\n> inner body\n> outer body\n").map
      Callout.isCollapsed = [false] ∧
    ((parseDocument "> [!note]+ Outer\n> [!tip]- Inner\n> inner body\n> outer body\n").map
      fun c => c.nestedCallouts.map spanOf) = [[(1, 3)]] ∧
    ((parseDocument "> [!note]+ Outer\n> [!tip]- Inner\n> inner body\n> outer body\n").map
      fun c => c.nestedCallouts.map Callout.isCollapsed) = [[true]] ∧
    ((parseDocument "> [!note]+ Outer\n> [!tip]- Inner\n> inner body\n> outer body\n").map
      fun c => c.nestedCallouts.map Callout.type) = [["tip"]] := by
  refine ⟨by decide, by decide, by decide, by decide, by decide⟩

/-! ### C3: uniform TOGGLE majority rule -/

/-- C3 counterexample: the ALL-scope visual TOGGLE branch does not follow the
majority rule.  With three elements of which one is collapsed (the first),
the majority rule demands all collapsed (`2 * 1 < 3`), but the code assigns
every element the negation of the first element's state: all expanded. -/
theorem visual_all_toggle_not_majority :
    applyVisualAllToggle [true, false, false] = [false, false, false] ∧
      2 * ([true, false, false].filter id).length < 3 := by
  decide

/-- C3 (amended): the majority rule governs uniform TOGGLE in the text
write-back path for every scope — `createCalloutOperation` assigns every
candidate the new state `collapsed iff 2 * collapsedCount < N` — and in the
SECTION scope of the visual write-back path; the ALL scope of the visual
path instead assigns every element the negation of the first element's
state, and the CURRENT scope of the visual path toggles its single target
element. -/
theorem toggle_majority_text_and_section (cs : List Callout) (c : Callout)
    (elems : List Bool) :
    createCalloutOperation Mode.toggle cs c =
      decide (2 * countCollapsed cs < cs.length) ∧
    applyVisualSectionToggle elems =
      elems.map (fun _ => decide (2 * (elems.filter id).length < elems.length)) := by
  constructor
  · rfl
  · cases elems with
    | nil => rfl
    | cons e rest => rfl

/-! ### C5: section resolution -/

/-- C5 counterexample: in the document
`"# H1\nx\nx\n> [!a] Outer\n> [!b] Inner\n# H2\ntail"` — headings at lines 0
and 5, reference line 3 — the only parsed callout spans `[3,5]` (its
terminator handling swallows the heading line), is not contained in the
claimed section `[0,4]`, and is nevertheless kept by the section filter. -/
theorem getCalloutsInSection_keeps_callout_ending_on_heading :
    (parseDocument "# H1\nx\nx\n> [!a] Outer\n> [!b] Inner\n# H2\ntail").map
      spanOf = [(3, 5)] ∧
    ((getCalloutsInSection
      (parseDocument "# H1\nx\nx\n> [!a] Outer\n> [!b] Inner\n# H2\ntail")
      (splitLines "# H1\nx\nx\n> [!a] Outer\n> [!b] Inner\n# H2\ntail") 3).map
      spanOf = [(3, 5)]) := by
  refine ⟨by decide, by decide⟩

/-- The downward scan stops exactly at the first heading line at or below the
start index. -/
theorem scanDown_eq_heading (lines : List String) :
    ∀ d i hIdx, hIdx - i = d → i ≤ hIdx → hIdx < lines.length →
    startsWithHash (lines.getD hIdx "") = true →
    (∀ j, i ≤ j → j < hIdx → startsWithHash (lines.getD j "") = false) →
    scanDown lines i = hIdx := by
  intro d
  induction d with
  | zero =>
    intro i hIdx hd hle hlt hhead _
    have hie : i = hIdx := Nat.le_antisymm hle (Nat.le_of_sub_eq_zero hd)
    subst hie
    have hdrop : lines.drop i = lines[i] :: lines.drop (i + 1) :=
      List.drop_eq_getElem_cons hlt
    have hh : startsWithHash lines[i] = true := by
      rw [← List.getD_eq_getElem lines "" hlt]
      exact hhead
    rw [scanDown, hdrop]
    simp [scanDownAux, hh]
  | succ d ih =>
    intro i hIdx hd hle hlt hhead hnone
    have hilt : i < hIdx := by omega
    have hlen : i < lines.length := Nat.lt_trans hilt hlt
    have hdrop : lines.drop i = lines[i] :: lines.drop (i + 1) :=
      List.drop_eq_getElem_cons hlen
    have hfalse : startsWithHash lines[i] = false := by
      rw [← List.getD_eq_getElem lines "" hlen]
      exact hnone i (Nat.le_refl i) hilt
    have hstep : scanDown lines i = scanDown lines (i + 1) := by
      rw [scanDown, hdrop]
      simp [scanDownAux, hfalse]
      rw [scanDown]
    rw [hstep]
    exact ih (i + 1) hIdx (by omega) hilt hlt hhead
      (fun j hj hj2 => hnone j (Nat.le_of_succ_le hj) hj2)

/-- C5 (amended): when a heading line exists at index `hIdx` at or below the
reference line (and none strictly between them), the section filter keeps
exactly the callouts whose span is contained in
`[scanUp lines cursorLine, hIdx]` — the end boundary is the heading line
ITSELF, not the line before it, so a callout whose `endLine` equals the
heading index is kept. -/
theorem getCalloutsInSection_end_at_heading
    (callouts : List Callout) (lines : List String) (cursorLine hIdx : Nat)
    (hle : cursorLine ≤ hIdx) (hlt : hIdx < lines.length)
    (hhead : startsWithHash (lines.getD hIdx "") = true)
    (hnone : ∀ j, cursorLine ≤ j → j < hIdx → startsWithHash (lines.getD j "") = false)
    (c : Callout) :
    c ∈ getCalloutsInSection callouts lines cursorLine ↔
      c ∈ callouts ∧ scanUp lines cursorLine ≤ c.startLine ∧ c.endLine ≤ hIdx := by
  have hdown : scanDown lines cursorLine = hIdx :=
    scanDown_eq_heading lines (hIdx - cursorLine) cursorLine hIdx rfl hle hlt hhead hnone
  rw [getCalloutsInSection]
  simp only [hdown, List.mem_filter, Bool.and_eq_true, decide_eq_true_eq]

/-- Witness for the amended C5 theorem at a concrete document: two lines, the
second a heading, reference line 0, one callout spanning line 0. -/
theorem getCalloutsInSection_end_at_heading_witness :
    Callout.mk "a" "t" false "" 0 0 [] "" ∈
      getCalloutsInSection [Callout.mk "a" "t" false "" 0 0 [] ""] ["x", "# h"] 0 ↔
      Callout.mk "a" "t" false "" 0 0 [] "" ∈ [Callout.mk "a" "t" false "" 0 0 [] ""] ∧
      scanUp ["x", "# h"] 0 ≤ 0 ∧ 0 ≤ 1 :=
  getCalloutsInSection_end_at_heading
    [Callout.mk "a" "t" false "" 0 0 [] ""] ["x", "# h"] 0 1
    (by decide) (by decide) (by decide)
    (fun j hj hj2 => by
      have hj0 : j = 0 := by omega
      subst hj0
      decide)
    (Callout.mk "a" "t" false "" 0 0 [] "")

/-! ### C6: frame of the header rewrite -/

/-- C6 counterexample: the rewrite does not leave every non-marker segment
verbatim.  On a header whose quote marker is followed by two spaces, the
returned line carries a single space: the whitespace around the quote marker
is normalized, so the result differs from the line whose marker segment
alone was changed. -/
theorem updateCollapseState_normalizes_quote_whitespace :
    (Callout.mk "note" "Hi" false "" 0 0 [] ">  [!note]+ Hi").updateCollapseState true =
      "> [!note]- Hi" ∧
    ("> [!note]- Hi" : String) ≠ ">  [!note]- Hi" := by
  refine ⟨by decide, by decide⟩

/-- C6 (amended): for every raw line the header pattern matches, the rewrite
returns exactly the quote marker, a single space, the type tag capture
verbatim, the new collapse marker, a single space, the title capture
verbatim, and the unmatched tail of the line; the type tag and title are
preserved exactly, while the whitespace around the quote marker and before
the title is normalized to single spaces. -/
theorem updateCollapseState_preserves_captures
    (c : Callout) (s : Bool) (ty col title tail : List Char)
    (h : matchCalloutChars c.rawLine.data = some (ty, col, title, tail)) :
    (c.updateCollapseState s).data =
      headerChars ty (if s then '-' else '+') title ++ tail := by
  rw [Callout.updateCollapseState, replaceCalloutLine, h]
  rfl

/-- Witness for the amended C6 theorem on the concrete header
`"> [!note]+ Hi"` collapsed. -/
theorem updateCollapseState_preserves_captures_witness :
    ((Callout.mk "note" "Hi" false "" 0 0 [] "> [!note]+ Hi").updateCollapseState true).data =
      headerChars ['n', 'o', 't', 'e'] '-' ['H', 'i'] ++ [] :=
  updateCollapseState_preserves_captures
    (Callout.mk "note" "Hi" false "" 0 0 [] "> [!note]+ Hi") true
    ['n', 'o', 't', 'e'] ['+'] ['H', 'i'] [] (by decide)

/-! ### C7: correlation cascade -/

/-- C7 counterexample: the repository holds two correlators and only one
follows the cascade.  For a visual element with title `"Hello"`, empty
content and type `"note"`, and a parsed callout titled `"Hello World"` of
the same type, the fourth (fuzzy) strategy succeeds — the sync service's
matcher pairs the element with that callout — but
`DOMCalloutService.findMatchingCallout` pairs the element with null: it has
no title-only or fuzzy fallback, so "null only when all four strategies
fail" is false for that correlator. -/
theorem findMatchingCallout_no_fuzzy_fallback :
    findMatchingCallout [Callout.mk "note" "Hello World" false "" 0 0 [] ""]
      "Hello" "" (some "note") = none ∧
    findMatchingMarkdownCallout [Callout.mk "note" "Hello World" false "" 0 0 [] ""]
      "Hello" "note" false =
      some (Callout.mk "note" "Hello World" false "" 0 0 [] "") := by
  refine ⟨rfl, rfl⟩

/-- C7 (amended): the four-strategy cascade — strategies tried in order,
each returning the first (document order) callout satisfying it, null
exactly when no callout satisfies any strategy — is the correlation
performed by the sync service's `findMatchingMarkdownCallout`; the DOM
service's `findMatchingCallout` does NOT follow the cascade: it is a single
exact-match pass (title equality, type equality whenever a type was read
off the element, bidirectional content containment for content shorter than
50 units) that pairs the element with null exactly when no callout passes
that one test. -/
theorem correlation_cascade_and_dom_single_pass (markdownCallouts : List Callout)
    (title type content : String) (isCollapsed : Bool) (domType : Option String) :
    findMatchingMarkdownCallout markdownCallouts title type isCollapsed =
      correlateCascade markdownCallouts title type isCollapsed ∧
    (findMatchingMarkdownCallout markdownCallouts title type isCollapsed = none ↔
      ∀ c ∈ markdownCallouts,
        ¬(matchesTitleTypeState title type isCollapsed c = true ∨
          matchesTitleType title type c = true ∨
          matchesTitle title c = true ∨
          fuzzyTitleMatch title c = true)) ∧
    (findMatchingCallout markdownCallouts title content domType = none ↔
      ∀ c ∈ markdownCallouts, ¬ domCalloutMatches title content domType c = true) := by
  refine ⟨rfl, ?_, List.find?_eq_none⟩
  rw [findMatchingMarkdownCallout]
  cases h1 : markdownCallouts.find? (fun c =>
      c.title == title && c.type == type && c.isCollapsed == isCollapsed) with
  | some m =>
    simp only [reduceCtorEq, false_iff]
    intro hall
    exact hall m (List.mem_of_find?_eq_some h1)
      (Or.inl (List.find?_some h1))
  | none =>
    cases h2 : markdownCallouts.find? (fun c => c.title == title && c.type == type) with
    | some m =>
      simp only [reduceCtorEq, false_iff]
      intro hall
      exact hall m (List.mem_of_find?_eq_some h2)
        (Or.inr (Or.inl (List.find?_some h2)))
    | none =>
      cases h3 : markdownCallouts.find? (fun c => c.title == title) with
      | some m =>
        simp only [reduceCtorEq, false_iff]
        intro hall
        exact hall m (List.mem_of_find?_eq_some h3)
          (Or.inr (Or.inr (Or.inl (List.find?_some h3))))
      | none =>
        cases h4 : markdownCallouts.find? (fun c =>
            jsIncludes title c.title || jsIncludes c.title title) with
        | some m =>
          simp only [reduceCtorEq, false_iff]
          intro hall
          exact hall m (List.mem_of_find?_eq_some h4)
            (Or.inr (Or.inr (Or.inr (List.find?_some h4))))
        | none =>
          simp only [true_iff]
          intro c hc hor
          rcases hor with hp | hp | hp | hp
          · exact absurd hp (by
              have := List.find?_eq_none.mp h1 c hc
              simpa [matchesTitleTypeState] using this)
          · exact absurd hp (by
              have := List.find?_eq_none.mp h2 c hc
              simpa [matchesTitleType] using this)
          · exact absurd hp (by
              have := List.find?_eq_none.mp h3 c hc
              simpa [matchesTitle] using this)
          · exact absurd hp (by
              have := List.find?_eq_none.mp h4 c hc
              simpa [fuzzyTitleMatch] using this)

/-! ### C4: round-trip of the header mutation -/

/-- An element of an option, read off as a head equation. -/
theorem mem_head?_dropWhile_not (p : α → Bool) (l : List α) :
    ∀ x ∈ (l.dropWhile p).head?, p x = false := by
  intro x hx
  have h2 := List.head?_dropWhile_not p l
  rw [Option.mem_def] at hx
  rw [hx] at h2
  exact h2

/-- A head of `takeWhile` is the head of the underlying list. -/
theorem head?_takeWhile_some (p : α → Bool) (l : List α) (x : α)
    (h : (l.takeWhile p).head? = some x) : l.head? = some x := by
  cases l with
  | nil => simp [List.takeWhile] at h
  | cons z zs =>
    by_cases hp : p z
    · simp [List.takeWhile_cons, hp] at h
      simp [h]
    · simp [List.takeWhile_cons, hp] at h

/-- Inversion of a successful header match: the type capture is a nonempty
run of type characters, the title capture holds no line terminator, and the
title does not begin with a whitespace character (the greedy `\s*` before
the capture consumed any). -/
theorem matchCalloutChars_inv (l ty col title tail : List Char)
    (h : matchCalloutChars l = some (ty, col, title, tail)) :
    ty ≠ [] ∧ (∀ c ∈ ty, isTypeChar c = true) ∧
    (∀ c ∈ title, isLineTerminator c = false) ∧
    (∀ x ∈ title.head?, isJsSpace x = false) := by
  rw [matchCalloutChars.eq_def] at h
  split at h
  case h_2 => exact absurd h (by simp)
  case h_1 c0 r0 =>
    split at h
    case h_2 => exact absurd h (by simp)
    case h_1 r1 heq1 =>
      split at h
      case h_2 => exact absurd h (by simp)
      case h_1 t0 ts r3 heqTy heqDrop =>
        simp only [Option.some.injEq, Prod.mk.injEq] at h
        obtain ⟨hty, _, htitle, _⟩ := h
        subst hty
        refine ⟨by simp, ?_, ?_, ?_⟩
        · intro c hc
          exact List.mem_takeWhile_imp (heqTy ▸ hc)
        · intro c hc
          rw [← htitle] at hc
          have := List.mem_takeWhile_imp hc
          simpa using this
        · intro x hx
          rw [← htitle] at hx
          rw [Option.mem_def] at hx
          have hx5 := head?_takeWhile_some _ _ _ hx
          have hdw := mem_head?_dropWhile_not isJsSpace
            ((match r3 with
              | c :: r => if c = '+' || c = '-' then ([c], r) else ([], r3)
              | [] => (([] : List Char), ([] : List Char))).2)
          exact hdw x (Option.mem_def.mpr hx5)

/-- Splitting a newline-free character list yields a single piece. -/
theorem splitNL_no_newline (l : List Char) (h : ∀ c ∈ l, c ≠ '\n') :
    splitNL l = (l, []) := by
  induction l with
  | nil => rfl
  | cons c rest ih =>
    rw [splitNL]
    have hc : ¬(c = '\n') := h c (List.mem_cons_self c rest)
    rw [ih fun d hd => h d (List.mem_cons_of_mem c hd)]
    simp [hc]

/-- Splitting a newline-free string yields that string as the only line. -/
theorem splitLines_no_newline (s : String) (h : ∀ c ∈ s.data, c ≠ '\n') :
    splitLines s = [s] := by
  rw [splitLines, splitNL_no_newline s.data h]
  rfl

/-- The constructed header template matches its own pattern and captures
exactly the pieces it was built from. -/
theorem matchCalloutChars_header (ty title : List Char) (marker : Char)
    (hne : ty ≠ []) (hty : ∀ c ∈ ty, isTypeChar c = true)
    (hmk : marker = '+' ∨ marker = '-')
    (htitle : ∀ c ∈ title, isLineTerminator c = false)
    (hhead : ∀ x ∈ title.head?, isJsSpace x = false) :
    matchCalloutChars (headerChars ty marker title) = some (ty, [marker], title, []) := by
  obtain ⟨t0, ts, rfl⟩ := List.exists_cons_of_ne_nil hne
  have hdropSp : (' ' :: '[' :: '!' :: ((t0 :: ts) ++ ']' :: marker :: ' ' :: title)).dropWhile
      isJsSpace = '[' :: '!' :: ((t0 :: ts) ++ ']' :: marker :: ' ' :: title) := by
    rw [List.dropWhile_cons, List.dropWhile_cons]
    simp [show isJsSpace ' ' = true from by decide,
      show isJsSpace '[' = false from by decide]
  have htake : ((t0 :: ts) ++ ']' :: marker :: ' ' :: title).takeWhile isTypeChar =
      t0 :: ts := by
    rw [List.takeWhile_append_of_pos hty, List.takeWhile_cons]
    simp [show isTypeChar ']' = false from by decide]
  have hdropTy : ((t0 :: ts) ++ ']' :: marker :: ' ' :: title).dropWhile isTypeChar =
      ']' :: marker :: ' ' :: title := by
    rw [List.dropWhile_append_of_pos hty, List.dropWhile_cons]
    simp [show isTypeChar ']' = false from by decide]
  have hmarker : (marker = '+' || marker = '-') = true := by
    rcases hmk with rfl | rfl <;> decide
  have hdropTitle : (' ' :: title).dropWhile isJsSpace = title := by
    rw [List.dropWhile_cons]
    simp only [show isJsSpace ' ' = true from rfl, if_true]
    cases htl : title with
    | nil => rfl
    | cons x xs =>
      rw [List.dropWhile_cons]
      have : isJsSpace x = false := by
        apply hhead
        rw [htl, Option.mem_def]
        rfl
      simp [this]
  have htakeTitle : title.takeWhile (fun c => !isLineTerminator c) = title := by
    have : ∀ c ∈ title, (fun c => !isLineTerminator c) c = true := by
      intro c hc
      simp [htitle c hc]
    rw [show title = title ++ [] by simp, List.takeWhile_append_of_pos (by simpa using this)]
    simp
  have hdropTitle2 : title.dropWhile (fun c => !isLineTerminator c) = [] := by
    have : ∀ c ∈ title, (fun c => !isLineTerminator c) c = true := by
      intro c hc
      simp [htitle c hc]
    rw [show title = title ++ [] by simp, List.dropWhile_append_of_pos (by simpa using this)]
    rfl
  rw [matchCalloutChars.eq_def]
  simp only [headerChars, hdropSp, htake, hdropTy, hmarker, hdropTitle, htakeTitle,
    hdropTitle2, if_true]

/-- A document consisting of one matched header line and no newline parses to
a single body-less callout covering line 0. -/
theorem parseDocument_single_header (m : String) (ty col title : List Char)
    (hm : matchCalloutChars m.data = some (ty, col, title, []))
    (hnl : ∀ c ∈ m.data, c ≠ '\n') :
    parseDocument m = [Callout.mk ty.asString (jsTrimChars title).asString
      (decide (col = ['-'])) "" 0 0 [] m] := by
  have hsplit : splitLines m = [m] := splitLines_no_newline m hnl
  rw [parseDocument]
  rw [hsplit]
  have hstart : isCalloutStartLine m = true := by
    rw [isCalloutStartLine, hm]
    rfl
  simp only [List.length_cons, List.length_nil, docFuel, parseDocumentAux, List.get?,
    hstart, if_true, parseCalloutF, hm, extractContentF, extractLoop, List.drop,
    parseNestedF, parseNestedAuxF, formatContent, List.map_nil, String.intercalate]

/-- C4 counterexample: the spec's own scenario-4 header — legal, with no
explicit collapse marker — is NOT restored textually by the round trip:
collapsing, re-parsing and expanding `"> [!warning] Untitled"` yields
`"> [!warning]+ Untitled"`, which differs from the original. -/
theorem roundTrip_unmarked_header_not_identity :
    roundTripHeader "> [!warning] Untitled" = "> [!warning]+ Untitled" ∧
    ("> [!warning]+ Untitled" : String) ≠ "> [!warning] Untitled" := by
  refine ⟨by decide, by decide⟩

/-- C4 (amended): for every header line the pattern matches (with no
line-terminator tail), the round trip — `updateCollapseState(c, true)`,
re-parse, `updateCollapseState(c', false)` — yields the NORMALIZED expanded
header `> [!type]+ title` rebuilt from the original line's captures; it is
textually identical to the original exactly when the original is already in
that normalized form. -/
theorem roundTripHeader_normalizes (raw : String) (ty col title : List Char)
    (h : matchCalloutChars raw.data = some (ty, col, title, [])) :
    roundTripHeader raw = (headerChars ty '+' title).asString ∧
    (roundTripHeader raw = raw ↔ raw.data = headerChars ty '+' title) := by
  obtain ⟨hne, hty, htitle, hhead⟩ := matchCalloutChars_inv raw.data ty col title [] h
  have hmut : replaceCalloutLine raw true = (headerChars ty '-' title).asString := by
    rw [replaceCalloutLine, h]
    simp
  have hmatch : matchCalloutChars (headerChars ty '-' title) = some (ty, ['-'], title, []) :=
    matchCalloutChars_header ty title '-' hne hty (Or.inr rfl) htitle hhead
  have hnl : ∀ c ∈ headerChars ty '-' title, c ≠ '\n' := by
    intro c hc hceq
    subst hceq
    simp only [headerChars, List.mem_cons, List.mem_append] at hc
    rcases hc with h0 | h0 | h0 | h0 | h0 | h0 | h0 | h0 | h0
    · exact absurd h0 (by decide)
    · exact absurd h0 (by decide)
    · exact absurd h0 (by decide)
    · exact absurd h0 (by decide)
    · exact absurd (hty '\n' h0) (by decide)
    · exact absurd h0 (by decide)
    · exact absurd h0 (by decide)
    · exact absurd h0 (by decide)
    · exact absurd (htitle '\n' h0) (by decide)
  have hparse := parseDocument_single_header ((headerChars ty '-' title).asString)
    ty ['-'] title (by rw [show ((headerChars ty '-' title).asString).data =
      headerChars ty '-' title from rfl]; exact hmatch) hnl
  have hfinal : roundTripHeader raw = (headerChars ty '+' title).asString := by
    have h1 : roundTripHeader raw =
        match parseDocument (replaceCalloutLine raw true) with
        | c :: _ => c.updateCollapseState false
        | [] => replaceCalloutLine raw true := rfl
    rw [h1, hmut, hparse]
    show replaceCalloutLine ((headerChars ty '-' title).asString) false = _
    rw [replaceCalloutLine]
    rw [show ((headerChars ty '-' title).asString).data = headerChars ty '-' title from rfl,
      hmatch]
    simp
  refine ⟨hfinal, ?_⟩
  rw [hfinal]
  constructor
  · intro heq
    rw [← heq]
    rfl
  · intro hdat
    apply String.ext
    rw [hdat]
    rfl

/-- Witness for the amended C4 theorem on the already-normalized header
`"> [!note]+ Hi"`, which the round trip restores verbatim. -/
theorem roundTripHeader_normalizes_witness :
    roundTripHeader "> [!note]+ Hi" =
      (headerChars ['n', 'o', 't', 'e'] '+' ['H', 'i']).asString ∧
    (roundTripHeader "> [!note]+ Hi" = "> [!note]+ Hi" ↔
      "> [!note]+ Hi".data = headerChars ['n', 'o', 't', 'e'] '+' ['H', 'i']) :=
  roundTripHeader_normalizes "> [!note]+ Hi" ['n', 'o', 't', 'e'] ['+'] ['H', 'i']
    (by decide)

/-! ### C9: the span invariant -/

/-- When the extraction loop breaks at a terminator, the resulting end line
is at least the predecessor of the loop's entry line. -/
theorem extractLoop_break_ge (rest : List String) :
    ∀ cur nst e, (extractLoop rest cur nst).2 = some e → cur - 1 ≤ e := by
  induction rest with
  | nil =>
    intro cur nst e h
    exact absurd h (by simp [extractLoop])
  | cons line rest ih =>
    intro cur nst e h
    rw [extractLoop] at h
    by_cases h1 : isCalloutStartLine line
    · rw [if_pos h1] at h
      have := ih (cur + 1) (nst + 1) e h
      omega
    · rw [if_neg h1] at h
      by_cases h2 : isCalloutContinuationLine line
      · rw [if_pos h2] at h
        have := ih (cur + 1) nst e h
        omega
      · rw [if_neg h2] at h
        by_cases h3 : 0 < nst
        · rw [if_pos h3] at h
          have := ih (cur + 1) (nst - 1) e h
          omega
        · rw [if_neg h3] at h
          simp only [Option.some.injEq] at h
          omega

/-- Shifting both bounds preserves span well-formedness. -/
theorem spanWF_shift (c : Callout) (k : Nat) (h : SpanWF c) : SpanWF (c.shift k) := by
  cases c with
  | mk ty t b ct s e ns r =>
    cases h with
    | intro _ h1 h2 =>
      refine SpanWF.intro _ ?_ ?_
      · exact Nat.add_le_add_right h1 k
      · exact h2

/-- The span invariant, proved for every amount of fuel simultaneously for
the four mutually recursive parser functions: a parsed callout starts at its
header index and ends at or after it, every nested callout is span
well-formed, and the extractor's end line is at least the predecessor of the
content start line. -/
theorem spanWF_fuel (fuel : Nat) :
    (∀ lines idx c, parseCalloutF fuel lines idx = some c →
      SpanWF c ∧ c.startLine = idx ∧ idx ≤ c.endLine) ∧
    (∀ lines start, start ≤ lines.length →
      start - 1 ≤ (extractContentF fuel lines start).2.1 ∧
      ∀ n ∈ (extractContentF fuel lines start).2.2, SpanWF n) ∧
    (∀ cl ps n, n ∈ parseNestedF fuel cl ps → SpanWF n) ∧
    (∀ cl ps i n, n ∈ parseNestedAuxF fuel cl ps i → SpanWF n) := by
  induction fuel with
  | zero =>
    refine ⟨?_, ?_, ?_, ?_⟩
    · intro lines idx c h
      exact absurd h (by simp [parseCalloutF])
    · intro lines start _
      exact ⟨Nat.le_refl _, by simp [extractContentF]⟩
    · intro cl ps n h
      exact absurd h (by simp [parseNestedF])
    · intro cl ps i n h
      exact absurd h (by simp [parseNestedAuxF])
  | succ fuel ih =>
    obtain ⟨ihP, ihE, ihN, ihA⟩ := ih
    have stepP : ∀ lines idx c, parseCalloutF (fuel + 1) lines idx = some c →
        SpanWF c ∧ c.startLine = idx ∧ idx ≤ c.endLine := by
      intro lines idx c h
      rw [parseCalloutF] at h
      cases hg : lines.get? idx with
      | none =>
        simp only [hg] at h
        exact absurd h (by simp)
      | some sl =>
        simp only [hg] at h
        cases hm : matchCalloutChars sl.data with
        | none =>
          simp only [hm] at h
          exact absurd h (by simp)
        | some quad =>
          simp only [hm] at h
          obtain ⟨ty, col, title, tl⟩ := quad
          simp only [Option.some.injEq] at h
          have hidx : idx < lines.length := (List.get?_eq_some.mp hg).1
          have hE := ihE lines (idx + 1) (by omega)
          have hEnd : idx ≤ (extractContentF fuel lines (idx + 1)).2.1 := by
            have := hE.1
            omega
          subst h
          refine ⟨SpanWF.intro _ hEnd ?_, rfl, hEnd⟩
          intro n hn
          exact hE.2 n hn
    refine ⟨stepP, ?_, ?_, ?_⟩
    · intro lines start hle
      constructor
      · show start - 1 ≤
          (match (extractLoop (lines.drop start) start 0).2 with
           | some e => e
           | none => lines.length - 1)
        cases hb : (extractLoop (lines.drop start) start 0).2 with
        | some e =>
          show start - 1 ≤ e
          exact extractLoop_break_ge (lines.drop start) start 0 e hb
        | none =>
          show start - 1 ≤ lines.length - 1
          omega
      · intro n hn
        exact ihN _ _ n hn
    · intro cl ps n h
      rw [parseNestedF] at h
      exact ihA cl ps 0 n h
    · intro cl ps i n h
      rw [parseNestedAuxF] at h
      cases hg : cl.get? i with
      | none =>
        simp only [hg] at h
        exact absurd h (by simp)
      | some line =>
        simp only [hg] at h
        by_cases hs : isCalloutStartLine line
        · rw [if_pos hs] at h
          cases hp : parseCalloutF fuel (cl.drop i) 0 with
          | none =>
            simp only [hp] at h
            exact ihA cl ps (i + 1) n h
          | some nested0 =>
            simp only [hp] at h
            rcases List.mem_cons.mp h with rfl | hn
            · exact spanWF_shift nested0 (ps + 1 + i) (ihP _ _ _ hp).1
            · exact ihA cl ps _ n hn
        · rw [if_neg hs] at h
          exact ihA cl ps (i + 1) n h

/-- Every callout the document loop produces is span well-formed. -/
theorem parseDocumentAux_spanWF (fuel : Nat) (lines : List String) :
    ∀ iter i c, c ∈ parseDocumentAux fuel lines i iter → SpanWF c := by
  intro iter
  induction iter with
  | zero =>
    intro i c h
    exact absurd h (by simp [parseDocumentAux])
  | succ iter ih =>
    intro i c h
    rw [parseDocumentAux] at h
    cases hg : lines.get? i with
    | none =>
      simp only [hg] at h
      exact absurd h (by simp)
    | some line =>
      simp only [hg] at h
      by_cases hs : isCalloutStartLine line
      · rw [if_pos hs] at h
        cases hp : parseCalloutF fuel lines i with
        | none =>
          simp only [hp] at h
          exact ih (i + 1) c h
        | some c0 =>
          simp only [hp] at h
          rcases List.mem_cons.mp h with rfl | hn
          · exact ((spanWF_fuel fuel).1 lines i c hp).1
          · exact ih _ c hn
      · rw [if_neg hs] at h
        exact ih (i + 1) c h

/-- C9: every callout `parseDocument` produces — top-level or nested at any
depth — satisfies `startLine ≤ endLine`. -/
theorem parseDocument_spanWF (content : String) (c : Callout)
    (h : c ∈ parseDocument content) : SpanWF c := by
  rw [parseDocument] at h
  exact parseDocumentAux_spanWF _ _ _ _ c h

/-- Witness for C9 at the one-line document `"> [!a] t"`. -/
theorem parseDocument_spanWF_witness :
    SpanWF (Callout.mk "a" "t" false "" 0 0 [] "> [!a] t") :=
  parseDocument_spanWF "> [!a] t" (Callout.mk "a" "t" false "" 0 0 [] "> [!a] t")
    (by rw [show parseDocument "> [!a] t" =
        [Callout.mk "a" "t" false "" 0 0 [] "> [!a] t"] from rfl]
        exact List.mem_cons_self _ _)

/-! ### C8 and C10: the closest-callout query -/

/-- When no top-level callout contains the line, the containment query
returns nothing. -/
theorem findCalloutContainingLine_eq_none (callouts : List Callout) (n : Nat)
    (h : ∀ c ∈ callouts, c.containsLine n = false) :
    findCalloutContainingLine callouts n = none := by
  induction callouts with
  | nil => rfl
  | cons c rest ih =>
    rw [findCalloutContainingLine, h c (List.mem_cons_self c rest)]
    simp only [Bool.false_eq_true, if_false]
    exact ih fun d hd => h d (List.mem_cons_of_mem c hd)

/-- The head of a stable insertion: the old head if its key is strictly
smaller, the inserted element otherwise. -/
theorem head?_insertByKey (key : α → Nat) (x : α) (l : List α) :
    (insertByKey key x l).head? =
      some (match l with
            | [] => x
            | y :: _ => if key y < key x then y else x) := by
  cases l with
  | nil => rfl
  | cons y ys =>
    rw [insertByKey]
    by_cases hk : key y < key x
    · simp [hk]
    · simp [hk]

/-- The head of the stable sort is the first minimizer of the key. -/
theorem head?_jsSortByKey (key : α → Nat) (l : List α) :
    (jsSortByKey key l).head? = firstMinBy key l := by
  induction l with
  | nil => rfl
  | cons x xs ih =>
    rw [jsSortByKey, head?_insertByKey, firstMinBy, ← ih]
    cases hs : jsSortByKey key xs with
    | nil => rfl
    | cons y ys =>
      by_cases hk : key y < key x
      · simp [hk]
      · simp [hk]

/-- Inserting permutes: the result holds the new element and the old ones. -/
theorem insertByKey_perm (key : α → Nat) (x : α) (l : List α) :
    List.Perm (insertByKey key x l) (x :: l) := by
  induction l with
  | nil => exact List.Perm.refl _
  | cons y ys ih =>
    rw [insertByKey]
    by_cases hk : key y < key x
    · rw [if_pos hk]
      exact (ih.cons y).trans (List.Perm.swap x y ys)
    · rw [if_neg hk]

/-- The stable sort permutes its input. -/
theorem jsSortByKey_perm (key : α → Nat) (l : List α) :
    List.Perm (jsSortByKey key l) l := by
  induction l with
  | nil => exact List.Perm.refl _
  | cons x xs ih =>
    exact (insertByKey_perm key x (jsSortByKey key xs)).trans (ih.cons x)

/-- Inserting into a key-sorted list keeps it key-sorted. -/
theorem pairwise_insertByKey (key : α → Nat) (x : α) (l : List α)
    (h : List.Pairwise (fun a b => key a ≤ key b) l) :
    List.Pairwise (fun a b => key a ≤ key b) (insertByKey key x l) := by
  induction l with
  | nil => simp [insertByKey]
  | cons y ys ih =>
    rw [insertByKey]
    rcases List.pairwise_cons.mp h with ⟨hy, hys⟩
    by_cases hk : key y < key x
    · rw [if_pos hk]
      refine List.pairwise_cons.mpr ⟨?_, ih hys⟩
      intro z hz
      rcases List.mem_cons.mp ((insertByKey_perm key x ys).mem_iff.mp hz) with rfl | hz'
      · exact Nat.le_of_lt hk
      · exact hy z hz'
    · rw [if_neg hk]
      refine List.pairwise_cons.mpr ⟨?_, h⟩
      intro z hz
      rcases List.mem_cons.mp hz with rfl | hz'
      · exact Nat.le_of_not_lt hk
      · exact Nat.le_trans (Nat.le_of_not_lt hk) (hy z hz')

/-- The stable sort produces a key-sorted list. -/
theorem pairwise_jsSortByKey (key : α → Nat) (l : List α) :
    List.Pairwise (fun a b => key a ≤ key b) (jsSortByKey key l) := by
  induction l with
  | nil => exact List.Pairwise.nil
  | cons x xs ih => exact pairwise_insertByKey key x (jsSortByKey key xs) ih

/-- C8 counterexample: with callouts spanning `[0,10]` and `[20,20]` and the
query line 12 (contained in neither), the code returns the FIRST callout —
its `distanceToLine` is `min |0-12| |10-12| = 2` — although the second
callout has the smaller start-line distance (`|20-12| = 8 < |0-12| = 12`),
so the returned callout does not minimize `|startLine - line|`. -/
theorem findClosestCallout_not_startLine_distance :
    findClosestCallout
        [Callout.mk "note" "A" false "" 0 10 [] "",
         Callout.mk "note" "B" false "" 20 20 [] ""] 12 =
      some (Callout.mk "note" "A" false "" 0 10 [] "") ∧
    startLineDistance (Callout.mk "note" "B" false "" 20 20 [] "") 12 <
      startLineDistance (Callout.mk "note" "A" false "" 0 10 [] "") 12 := by
  refine ⟨rfl, by decide⟩

/-- C8 (amended): when the line is contained in no callout, the query
returns the first callout in document order that minimizes
`distanceToLine` — the minimum of the distances to the start line AND to the
end line — with ties broken in favor of the earlier callout (the sort is
stable). -/
theorem findClosestCallout_firstMin (callouts : List Callout) (lineNumber : Nat)
    (h : ∀ c ∈ callouts, c.containsLine lineNumber = false) :
    findClosestCallout callouts lineNumber =
      firstMinBy (fun c => c.distanceToLine lineNumber) callouts := by
  have hnone := findCalloutContainingLine_eq_none callouts lineNumber h
  cases callouts with
  | nil => rfl
  | cons c rest =>
    unfold findClosestCallout findClosestCalloutSt
    rw [hnone]
    exact head?_jsSortByKey _ _

/-- Witness for the amended C8 theorem on the two concrete callouts of the
counterexample (line 12 is inside neither). -/
theorem findClosestCallout_firstMin_witness :
    findClosestCallout
        [Callout.mk "note" "A" false "" 0 10 [] "",
         Callout.mk "note" "B" false "" 20 20 [] ""] 12 =
      firstMinBy (fun c => c.distanceToLine 12)
        [Callout.mk "note" "A" false "" 0 10 [] "",
         Callout.mk "note" "B" false "" 20 20 [] ""] :=
  findClosestCallout_firstMin _ 12 (by decide)

/-- C10: the query's side effect on its argument.  When the line is contained
in no callout and the list is nonempty, the array the caller passed ends up
reordered: afterwards it holds exactly the stable distance sort of its
previous contents — a permutation ordered by `distanceToLine` instead of by
document order — and the returned callout is the head of that reordered
array. -/
theorem findClosestCallout_sorts_in_place (callouts : List Callout) (lineNumber : Nat)
    (h : ∀ c ∈ callouts, c.containsLine lineNumber = false) (hne : callouts ≠ []) :
    (findClosestCalloutSt callouts lineNumber).2 =
      jsSortByKey (fun c => c.distanceToLine lineNumber) callouts ∧
    List.Perm (findClosestCalloutSt callouts lineNumber).2 callouts ∧
    List.Pairwise (fun a b =>
      a.distanceToLine lineNumber ≤ b.distanceToLine lineNumber)
      (findClosestCalloutSt callouts lineNumber).2 ∧
    (findClosestCalloutSt callouts lineNumber).1 =
      (findClosestCalloutSt callouts lineNumber).2.head? := by
  have hnone := findCalloutContainingLine_eq_none callouts lineNumber h
  cases callouts with
  | nil => exact absurd rfl hne
  | cons c rest =>
    unfold findClosestCalloutSt
    rw [hnone]
    exact ⟨rfl, jsSortByKey_perm _ _, pairwise_jsSortByKey _ _, rfl⟩

/-- Witness for the C10 theorem on the two concrete callouts of the C8
counterexample: afterwards the array is a permutation of its old contents,
here applied to extract the permutation component. -/
theorem findClosestCallout_sorts_in_place_witness :
    List.Perm
      (findClosestCalloutSt
        [Callout.mk "note" "A" false "" 0 10 [] "",
         Callout.mk "note" "B" false "" 20 20 [] ""] 12).2
      [Callout.mk "note" "A" false "" 0 10 [] "",
       Callout.mk "note" "B" false "" 20 20 [] ""] :=
  (findClosestCallout_sorts_in_place _ 12 (by decide)
    (List.cons_ne_nil _ _)).2.1

end CalloutControl
